import Mathlib

/-!
Verification development for the atlas-ai-frontend repository.

The definitions below are a shallow embedding of the core logic of
`src/components/DocumentUpload.jsx` (which also bundles the ChatInterface
component): file selection/validation, per-file upload protocol, batch
orchestration, per-item status updates, the chat turn handlers, the
streaming message renderer, and the markdown-lite transform.

JavaScript conventions are modelled as follows: machine numbers are `Nat`
(sizes, timestamps, ids) or `ℚ` (fractional upload progress,
`Math.random()` values); `null`/`undefined` are `Option`; a thrown
exception is an explicit error branch; React `setState(prev => ...)`
updater calls are explicit state passing.
-/

/-- Upload item status, `status` field of a tracked file
(`DocumentUpload.jsx`): one of
`ready, getting-url, uploading, processing, completed, failed`. -/
inductive FileStatus
  | ready
  | gettingUrl
  | uploading
  | processing
  | completed
  | failed
deriving DecidableEq, Repr

/-- A tracked upload item, as built in `handleFileSelect`
(`DocumentUpload.jsx` lines 51–64): the copied `File` attributes, the
tracking fields, and the reference to the underlying payload (the original
`File` object, modelled as an opaque `Nat` handle). -/
structure FileItem where
  name : String
  size : Nat
  type : String
  lastModified : Nat
  id : Nat
  status : FileStatus
  progress : ℚ
  error : Option String
  file : Nat
deriving DecidableEq, Repr

/-- `MAX_FILES` constant (`DocumentUpload.jsx` line 12). -/
def MAX_FILES : Nat := 100

/-- `MAX_FILE_SIZE` constant, 50 MB (`DocumentUpload.jsx` line 13). -/
def MAX_FILE_SIZE : Nat := 50 * 1024 * 1024

/-- A candidate file coming from the picker / drag-drop, before admission.
`payload` is the opaque handle to the underlying `File` object. -/
structure Candidate where
  name : String
  size : Nat
  type : String
  lastModified : Nat
  payload : Nat
deriving DecidableEq, Repr

/-- `validateFile` (`DocumentUpload.jsx` lines 15–23). -/
def validateFile (file : Candidate) : Option String :=
  if file.type ≠ "application/pdf" then
    some "Only PDF files are allowed"
  else if file.size > MAX_FILE_SIZE then
    some "File size must be less than 50MB"
  else
    none

/-- The file object constructed for an admitted candidate
(`DocumentUpload.jsx` lines 51–64); `now` is the value of `Date.now()`
during the selection event and `idx` the candidate's index in the
selection (`id: Date.now() + index`). -/
def mkFileObj (now idx : Nat) (c : Candidate) : FileItem :=
  { name := c.name
    size := c.size
    type := c.type
    lastModified := c.lastModified
    id := now + idx
    status := FileStatus.ready
    progress := 0
    error := none
    file := c.payload }

/-- JavaScript `errors.join(", ")`. -/
def joinComma : List String → String
  | [] => ""
  | [e] => e
  | e :: rest => e ++ ", " ++ joinComma rest

/-- `handleFileSelect` (`DocumentUpload.jsx` lines 25–83): rejects the
whole selection when the file cap would be exceeded; otherwise validates
each candidate, skips duplicates of already-tracked `{name, size}` pairs,
and appends the admitted items. Returns the new tracked list and the
`globalStatus` message set by the handler. `Date.now()` is sampled as one
`now` for the synchronous loop. -/
def handleFileSelect (files : List FileItem) (now : Nat)
    (selected : List Candidate) : List FileItem × String :=
  if files.length + selected.length > MAX_FILES then
    (files, "Cannot upload more than " ++ toString MAX_FILES ++
      " files. Currently have " ++ toString files.length ++ " files.")
  else
    let step := fun (acc : List FileItem × List String) (ic : Nat × Candidate) =>
      match validateFile ic.2 with
      | some err => (acc.1, acc.2 ++ [ic.2.name ++ ": " ++ err])
      | none =>
        -- duplicate check runs against the pre-existing tracked list only
        if files.any (fun ef => ef.name == ic.2.name && ef.size == ic.2.size) then
          (acc.1, acc.2 ++ [ic.2.name ++ ": Duplicate file"])
        else
          (acc.1 ++ [mkFileObj now ic.1 ic.2], acc.2)
    let vf := selected.enum.foldl step ([], [])
    let status :=
      if vf.2 ≠ [] then
        "Some files were rejected: " ++ joinComma vf.2
      else ""
    (if vf.1 ≠ [] then files ++ vf.1 else files, status)

/-- `updateFileStatus` (`DocumentUpload.jsx` lines 117–126): functional
update of the tracked list, rewriting status/progress/error of every item
whose `id` matches. -/
def updateFileStatus (files : List FileItem) (fileId : Nat)
    (status : FileStatus) (progress : ℚ) (error : Option String) :
    List FileItem :=
  files.map (fun file =>
    if file.id = fileId then
      { file with status := status, progress := progress, error := error }
    else file)

/-- Shape of the `getUploadUrl` server response as consumed by
`uploadSingleFile` (`DocumentUpload.jsx` lines 185–199): the handler reads
`uploadResponse.data.uploadUrl` and `uploadResponse.data.key`, any of which
may be absent. An empty string is falsy in the JavaScript check, so it is
modelled as a distinct failing value. -/
structure UploadUrlData where
  uploadUrl : Option String
  key : Option String
deriving DecidableEq, Repr

/-- A server response envelope with a possibly-absent `data` field. -/
structure ApiResponse (α : Type) where
  data : Option α
deriving DecidableEq, Repr

/-- Outcome of the raw byte transfer `uploadToS3`
(`DocumentUpload.jsx` lines 129–160): the progress events delivered before
settlement, then resolution (`xhr.status === 200`) or rejection with the
reason string built from the status / network error / abort. -/
structure S3Result where
  ticks : List ℚ
  outcome : Except String Unit

/-- The network collaborators of the upload protocol (`apiService` calls
and the S3 transfer), as one oracle: each call either returns a response or
throws (`Except.error`). -/
structure UploadOracle where
  getUploadUrl : String → String → Except String (ApiResponse UploadUrlData)
  uploadToS3 : String → Nat → S3Result
  processDocument : String → String → String → Nat → Except String Unit

/-- The structured per-file result returned by `uploadSingleFile`
(`DocumentUpload.jsx` lines 219, 223–227). -/
structure UploadResult where
  success : Bool
  file : String
  error : Option String
deriving DecidableEq, Repr

/-- The `catch` block of `uploadSingleFile`
(`DocumentUpload.jsx` lines 220–228): mark the item failed and return a
structured failure result. -/
def uploadCatch (files : List FileItem) (f : FileItem) (msg : String) :
    List FileItem × UploadResult :=
  (updateFileStatus files f.id FileStatus.failed 0 (some msg),
   ⟨false, f.name, some msg⟩)

/-- `uploadSingleFile` (`DocumentUpload.jsx` lines 162–229). The
`try`/`catch` is inlined: every `throw` site flows into `uploadCatch`.
Empty `name`/`type` are falsy and hit the up-front validation throws.
Returns the tracked list after all status updates of this run, plus the
structured result. -/
def uploadSingleFile (oracle : UploadOracle) (files : List FileItem)
    (f : FileItem) : List FileItem × UploadResult :=
  if f.name = "" then
    uploadCatch files f "Invalid file object - missing name"
  else if f.type = "" then
    uploadCatch files f "Invalid file object - missing type"
  else
    let files₁ := updateFileStatus files f.id FileStatus.gettingUrl 0 none
    match oracle.getUploadUrl f.name f.type with
    | Except.error e => uploadCatch files₁ f e
    | Except.ok resp =>
      match resp.data with
      | none => uploadCatch files₁ f "Invalid upload URL response from server"
      | some d =>
        match d.uploadUrl, d.key with
        | some uploadUrl, some key =>
          if uploadUrl = "" ∨ key = "" then
            uploadCatch files₁ f "Invalid upload URL response from server"
          else
            let files₂ := updateFileStatus files₁ f.id FileStatus.uploading 0 none
            let s3 := oracle.uploadToS3 uploadUrl f.file
            -- each progress event updates the item's progress field
            let files₃ := s3.ticks.foldl
              (fun acc p => updateFileStatus acc f.id FileStatus.uploading p none)
              files₂
            match s3.outcome with
            | Except.error e => uploadCatch files₃ f e
            | Except.ok _ =>
              let files₄ := updateFileStatus files₃ f.id FileStatus.processing 100 none
              match oracle.processDocument key f.name f.type f.size with
              | Except.error e => uploadCatch files₄ f e
              | Except.ok _ =>
                (updateFileStatus files₄ f.id FileStatus.completed 100 none,
                 ⟨true, f.name, none⟩)
        | _, _ => uploadCatch files₁ f "Invalid upload URL response from server"

/-- The slicing loop of `handleUploadAll`
(`DocumentUpload.jsx` lines 246–251): consecutive chunks
`slice(i, i + batchSize)`. `n = 0` returns no chunks (the source always
uses `batchSize = 3`). -/
def chunksOfAux (n : Nat) : Nat → List α → List (List α)
  | _, [] => []
  | 0, _ :: _ => []
  | Nat.succ fuel, a :: as =>
    (a :: as).take n :: chunksOfAux n fuel ((a :: as).drop n)

/-- The slicing loop (continued): invoked with fuel `l.length`, an upper
bound on the number of iterations whenever `n ≥ 1` (the source always
uses `batchSize = 3`). -/
def chunksOf (n : Nat) (l : List α) : List (List α) :=
  chunksOfAux n l.length l

/-- One group of `handleUploadAll`: `batch.map(file => uploadSingleFile(file))`
settled by `Promise.all`. Since every per-file protocol resolves with a
structured result (the `catch` inside `uploadSingleFile`), `Promise.all`
collects one result per file; the interleaved status updates of the group
are modelled as settling in list order. -/
def processGroup (oracle : UploadOracle) (files : List FileItem)
    (group : List FileItem) : List FileItem × List UploadResult :=
  group.foldl
    (fun acc f =>
      let r := uploadSingleFile oracle acc.1 f
      (r.1, acc.2 ++ [r.2]))
    (files, [])

/-- The retryable subset selected by `handleUploadAll`
(`DocumentUpload.jsx` lines 234–236). -/
def filesToUpload (files : List FileItem) : List FileItem :=
  files.filter (fun f =>
    f.status = FileStatus.ready ∨ f.status = FileStatus.failed)

/-- `handleUploadAll` (`DocumentUpload.jsx` lines 231–268): early return on
an empty tracked list or no retryable files; otherwise process the
retryable files in sequential groups of 3, collect all structured results,
and emit the summary message. The returned `Bool` is whether
`onUploadComplete` was invoked. -/
def handleUploadAll (oracle : UploadOracle) (files : List FileItem) :
    List FileItem × List UploadResult × String × Bool :=
  if files = [] then (files, [], "", false)
  else if filesToUpload files = [] then (files, [], "", false)
  else
    let fin := (chunksOf 3 (filesToUpload files)).foldl
      (fun acc g =>
        let r := processGroup oracle acc.1 g
        (r.1, acc.2 ++ r.2))
      (files, [])
    let successful := fin.2.filter (fun r => r.success)
    let failed := fin.2.filter (fun r => !r.success)
    let msg :=
      if successful.length > 0 ∧ failed.length = 0 then
        "Successfully uploaded " ++ toString successful.length ++ " files!"
      else if successful.length > 0 ∧ failed.length > 0 then
        "Uploaded " ++ toString successful.length ++ " files. " ++
          toString failed.length ++ " failed."
      else "All uploads failed."
    (fin.1, fin.2, msg, true)

/-- Events of the batch orchestration, for the concurrency-bound claim: a
per-file protocol starting (its promise created by `batch.map`) or
settling. -/
inductive UpEvent
  | start (id : Nat)
  | settle (id : Nat)
deriving DecidableEq, Repr

/-- Event trace of one group of `handleUploadAll`: `batch.map` creates all
the group's promises before `Promise.all` is awaited, so all starts
precede all settlements of the group. -/
def groupTrace (g : List FileItem) : List UpEvent :=
  g.map (fun f => UpEvent.start f.id) ++ g.map (fun f => UpEvent.settle f.id)

/-- Event trace of `handleUploadAll`'s loop: the groups in order, each
fully settled (the `await Promise.all`) before the next one starts. -/
def uploadTrace (batch : List FileItem) : List UpEvent :=
  (chunksOf 3 batch).flatMap groupTrace

/-- Number of protocols in flight after a list of events
(starts minus settlements, as an integer). -/
def inFlight (events : List UpEvent) : ℤ :=
  (events.countP (fun e => match e with | UpEvent.start _ => true | _ => false) : ℤ) -
    (events.countP (fun e => match e with | UpEvent.settle _ => true | _ => false) : ℤ)

/-- A chat message as kept in the `messages` state of `ChatInterface`
(`DocumentUpload.jsx`, bundled ChatInterface component): optimistic
entries carry caller-assigned ids (`user-…`, `assistant-…`), reconciled
with the server id on success. Timestamps are modelled as the `Nat` clock
value. -/
structure ChatMsg where
  id : String
  role : String
  content : String
  createdAt : Nat
  fullContent : Option String := none
deriving DecidableEq, Repr

/-- A conversation record as kept in the `chats` state. -/
structure Chat where
  id : String
  title : String
  createdAt : Nat
  updatedAt : Nat
deriving DecidableEq, Repr

/-- The `ChatInterface` component state relevant to a chat turn. -/
structure ChatState where
  chats : List Chat
  activeChat : Option Chat
  messages : List ChatMsg
  newMessage : String
  newChatTitle : String
  streamingMessageId : Option String
  error : String
  sendingMessage : Bool
deriving DecidableEq, Repr

/-- Successful payload of `createChat` / `sendMessage`
(`response.data`): `chatId` is meaningless for follow-up turns. -/
structure ChatTurnResp where
  chatId : String
  answer : String
  messageId : String
deriving DecidableEq, Repr

/-- JavaScript `l.slice(0, -n)`: drop the last `n` elements. -/
def jsSliceDropLast (n : Nat) (l : List α) : List α :=
  l.take (l.length - n)

/-- JavaScript `String.prototype.trim()`: strip leading and trailing
whitespace. -/
def jsTrim (s : String) : String :=
  String.mk
    (((s.data.dropWhile Char.isWhitespace).reverse.dropWhile
        Char.isWhitespace).reverse)

/-- `createNewChat` (ChatInterface in `DocumentUpload.jsx`, lines
1169–1268). `now` models `Date.now()` for the synchronous prologue;
`resp = none` models a thrown network error or an invalid response format
(both land in the `catch`). The optimistic prologue replaces the message
list with exactly the user message and the assistant placeholder and
clears the draft; the `catch` drops `slice(0, -1)` — only the last
message — and does not restore the draft. -/
def createNewChat (st : ChatState) (now : Nat)
    (resp : Option ChatTurnResp) : ChatState :=
  if jsTrim st.newMessage = "" then st
  else
    let userQuery := jsTrim st.newMessage
    let chatTitle :=
      if jsTrim st.newChatTitle = "" then "Chat " ++ toString now
      else jsTrim st.newChatTitle
    let userMessage : ChatMsg :=
      { id := "user-" ++ toString now, role := "user",
        content := userQuery, createdAt := now }
    let assistantMessageId := "assistant-" ++ toString now
    let assistantMessage : ChatMsg :=
      { id := assistantMessageId, role := "assistant", content := "",
        createdAt := now, fullContent := some "" }
    let tempChatId := "temp-" ++ toString now
    let newChatObject : Chat :=
      { id := tempChatId, title := chatTitle, createdAt := now,
        updatedAt := now }
    -- optimistic UI updates before the network call
    let st₁ : ChatState :=
      { st with
        chats := newChatObject :: st.chats
        activeChat := some newChatObject
        messages := [userMessage, assistantMessage]
        newMessage := ""
        newChatTitle := ""
        streamingMessageId := some assistantMessageId }
    match resp with
    | some r =>
      let updatedChat := { newChatObject with id := r.chatId }
      { st₁ with
        chats := st₁.chats.map (fun c =>
          if c.id = tempChatId then updatedChat else c)
        activeChat := some updatedChat
        messages := st₁.messages.map (fun m =>
          if m.id = assistantMessageId then
            { m with
              id := r.messageId
              fullContent := some r.answer
              content := "" }
          else m)
        sendingMessage := false }
    | none =>
      { st₁ with
        error := "Failed to create chat: Invalid response format"
        messages := jsSliceDropLast 1 st₁.messages
        streamingMessageId := none
        sendingMessage := false }

/-- `sendMessage` (ChatInterface in `DocumentUpload.jsx`, lines
1270–1345): appends both optimistic entries, clears the draft; on failure
drops `slice(0, -2)` — both entries — and restores the trimmed draft. -/
def sendMessage (st : ChatState) (now : Nat)
    (resp : Option ChatTurnResp) : ChatState :=
  if jsTrim st.newMessage = "" ∨ st.activeChat = none then st
  else
    let userQuery := jsTrim st.newMessage
    let userMessage : ChatMsg :=
      { id := "user-" ++ toString now, role := "user",
        content := userQuery, createdAt := now }
    let assistantMessageId := "assistant-" ++ toString now
    let assistantMessage : ChatMsg :=
      { id := assistantMessageId, role := "assistant", content := "",
        createdAt := now, fullContent := some "" }
    let st₁ : ChatState :=
      { st with
        messages := st.messages ++ [userMessage, assistantMessage]
        newMessage := ""
        streamingMessageId := some assistantMessageId }
    match resp with
    | some r =>
      { st₁ with
        messages := st₁.messages.map (fun m =>
          if m.id = assistantMessageId then
            { m with
              id := r.messageId
              fullContent := some r.answer
              content := "" }
          else m)
        sendingMessage := false }
    | none =>
      { st₁ with
        error := "Failed to send message: Invalid response format"
        messages := jsSliceDropLast 2 st₁.messages
        newMessage := userQuery
        streamingMessageId := none
        sendingMessage := false }

/-- The chunk-size pick of the streaming loop
(`DocumentUpload.jsx` lines 1023–1024):
`Math.random() > 0.7 ? 3 : Math.random() > 0.4 ? 2 : 1`, with the two
`Math.random()` draws given as rationals in `[0, 1)`. -/
def chunkSizeJS (r1 r2 : ℚ) : Nat :=
  if r1 > 7/10 then 3 else if r2 > 4/10 then 2 else 1

/-- The `streamText` tick loop of `MessageContent`
(`DocumentUpload.jsx` lines 1020–1036): while the cursor is inside the
source, append `content.slice(index, index + chunkSize)` to the displayed
accumulator and reschedule; once the cursor reaches the end, invoke
`onStreamComplete` once. `rand` supplies the `Math.random()` draws of each
tick; returns the final displayed value and the number of
`onStreamComplete` invocations. -/
def streamText (content : List Char) (rand : Nat → ℚ × ℚ)
    (tick index : Nat) (displayed : List Char) : List Char × Nat :=
  if index < content.length then
    let chunkSize := chunkSizeJS (rand tick).1 (rand tick).2
    streamText content rand (tick + 1) (index + chunkSize)
      (displayed ++ (content.drop index).take chunkSize)
  else (displayed, 1)
termination_by content.length - index
decreasing_by
  simp only [chunkSizeJS]
  split <;> [skip; split] <;> omega

/-- One run of the `MessageContent` streaming effect with
`isStreaming = true` (`DocumentUpload.jsx` lines 1014–1044): the effect
body is guarded by `isStreaming && content && !streamingRef.current`, and
the empty string is falsy, so an empty source never starts the loop — the
displayed value stays at its initial `""` and the completion callback is
never invoked. Returns (final displayed value, number of
`onStreamComplete` invocations). -/
def messageContentEffect (content : List Char) (rand : Nat → ℚ × ℚ) :
    List Char × Nat :=
  if content.isEmpty then ([], 0)
  else streamText content rand 0 0 []

example : (messageContentEffect "abcde".data (fun _ => (0, 1/2))).1 =
    "abcde".data := by
  rw [messageContentEffect]
  norm_num
  rw [streamText, streamText, streamText, streamText]
  norm_num [chunkSizeJS]

/-! ### The markdown-lite transform `parseMarkdown`
(`DocumentUpload.jsx` lines 956–1007)

Each `.replace` of the JavaScript pipeline is one pass below, over
`List Char`. Patterns with the `m` flag (`^… (.*$)` with `.` not matching
newline) act independently on each `\n`-separated line, so they are
modelled as a per-line map. Global scans (`g` flag) are modelled as
left-to-right scanners: a failed match at a position emits the character
and moves one position right, exactly as the regex engine advances its
start position. Scanners carry a fuel argument (instantiated with the
input length, an upper bound on the number of advances) to stay
structurally recursive. -/

/-- The backtick character. -/
def tickChar : Char := Char.ofNat 96

/-- Split into `\n`-separated lines (the line structure seen by an
`m`-flagged `^…$` pattern). -/
def splitLines : List Char → List (List Char)
  | [] => [[]]
  | c :: rest =>
    if c = '\n' then [] :: splitLines rest
    else
      match splitLines rest with
      | [] => [[c]]
      | line :: more => (c :: line) :: more

/-- Apply a per-line rewrite to every line, keeping the separators: the
semantics of one `gim`-flagged `^… (.*$)` replacement. -/
def mapLines (f : List Char → List Char) (l : List Char) : List Char :=
  List.intercalate ['\n'] ((splitLines l).map f)

/-- `^### (.*$)` → `<h3 …>$1</h3>` (first heading replacement). -/
def h3Line (line : List Char) : List Char :=
  if "### ".data.isPrefixOf line then
    "<h3 class=\"text-lg font-semibold mt-4 mb-2\">".data ++ line.drop 4 ++
      "</h3>".data
  else line

/-- `^## (.*$)` → `<h2 …>$1</h2>` (second heading replacement). -/
def h2Line (line : List Char) : List Char :=
  if "## ".data.isPrefixOf line then
    "<h2 class=\"text-xl font-semibold mt-4 mb-2\">".data ++ line.drop 3 ++
      "</h2>".data
  else line

/-- `^# (.*$)` → `<h1 …>$1</h1>` (third heading replacement). -/
def h1Line (line : List Char) : List Char :=
  if "# ".data.isPrefixOf line then
    "<h1 class=\"text-2xl font-bold mt-4 mb-2\">".data ++ line.drop 2 ++
      "</h1>".data
  else line

/-- For `\*\*(.*?)\*\*`: find the first closing `**` (the non-greedy
continuation), failing on a newline (`.` does not match newline). Returns
the captured content and the remainder after the closing delimiter. -/
def findClose2 : List Char → Option (List Char × List Char)
  | [] => none
  | c :: rest =>
    if c = '*' then
      match rest with
      | c' :: rest' =>
        if c' = '*' then some ([], rest')
        else (findClose2 rest).map (fun p => (c :: p.1, p.2))
      | [] => none
    else if c = '\n' then none
    else (findClose2 rest).map (fun p => (c :: p.1, p.2))

/-- Global `\*\*(.*?)\*\*` → `<strong class="font-semibold">$1</strong>`. -/
def replaceBoldAux : Nat → List Char → List Char
  | 0, l => l
  | _ + 1, [] => []
  | fuel + 1, c :: rest =>
    if c = '*' ∧ rest.take 1 = ['*'] then
      match findClose2 (rest.drop 1) with
      | some p =>
        "<strong class=\"font-semibold\">".data ++ p.1 ++ "</strong>".data ++
          replaceBoldAux fuel p.2
      | none => c :: replaceBoldAux fuel rest
    else c :: replaceBoldAux fuel rest

/-- The bold pass at full fuel. -/
def replaceBold (l : List Char) : List Char := replaceBoldAux l.length l

/-- For `\*(.*?)\*`: find the first closing `*` (content may be empty),
failing on a newline. -/
def findClose1 : List Char → Option (List Char × List Char)
  | [] => none
  | c :: rest =>
    if c = '*' then some ([], rest)
    else if c = '\n' then none
    else (findClose1 rest).map (fun p => (c :: p.1, p.2))

/-- Global `\*(.*?)\*` → `<em class="italic">$1</em>`. -/
def replaceItalicAux : Nat → List Char → List Char
  | 0, l => l
  | _ + 1, [] => []
  | fuel + 1, c :: rest =>
    if c = '*' then
      match findClose1 rest with
      | some p =>
        "<em class=\"italic\">".data ++ p.1 ++ "</em>".data ++
          replaceItalicAux fuel p.2
      | none => c :: replaceItalicAux fuel rest
    else c :: replaceItalicAux fuel rest

/-- The italic pass at full fuel. -/
def replaceItalic (l : List Char) : List Char := replaceItalicAux l.length l

/-- Find the first closing triple backtick (`[\s\S]*?` is non-greedy and
crosses newlines). -/
def findFence : List Char → Option (List Char × List Char)
  | c₁ :: c₂ :: c₃ :: rest =>
    if c₁ = tickChar ∧ c₂ = tickChar ∧ c₃ = tickChar then some ([], rest)
    else (findFence (c₂ :: c₃ :: rest)).map (fun p => (c₁ :: p.1, p.2))
  | _ => none

/-- Global fenced block replacement:
triple backtick `([\s\S]*?)` triple backtick → `<pre …><code …>$1</code></pre>`. -/
def replaceCodeBlocksAux : Nat → List Char → List Char
  | 0, l => l
  | _ + 1, [] => []
  | fuel + 1, c :: rest =>
    if c = tickChar ∧ rest.take 2 = [tickChar, tickChar] then
      match findFence (rest.drop 2) with
      | some p =>
        ("<pre class=\"bg-gray-100 dark:bg-gray-800 p-3 rounded-md my-2 " ++
          "overflow-x-auto\"><code class=\"text-sm\">").data ++ p.1 ++
          "</code></pre>".data ++ replaceCodeBlocksAux fuel p.2
      | none => c :: replaceCodeBlocksAux fuel rest
    else c :: replaceCodeBlocksAux fuel rest

/-- The fenced-block pass at full fuel. -/
def replaceCodeBlocks (l : List Char) : List Char :=
  replaceCodeBlocksAux l.length l

/-- For the inline-code pattern: one or more non-backtick characters, then
the closing backtick. -/
def findTickClose (l : List Char) : Option (List Char × List Char) :=
  let content := l.takeWhile (fun c => c ≠ tickChar)
  match l.dropWhile (fun c => c ≠ tickChar) with
  | [] => none
  | _ :: r => if content = [] then none else some (content, r)

/-- Global inline-code replacement: backtick `([^…]+)` backtick →
`<code …>$1</code>`. -/
def replaceInlineCodeAux : Nat → List Char → List Char
  | 0, l => l
  | _ + 1, [] => []
  | fuel + 1, c :: rest =>
    if c = tickChar then
      match findTickClose rest with
      | some p =>
        "<code class=\"bg-gray-100 dark:bg-gray-800 px-1 py-0.5 rounded text-sm\">".data ++
          p.1 ++ "</code>".data ++ replaceInlineCodeAux fuel p.2
      | none => c :: replaceInlineCodeAux fuel rest
    else c :: replaceInlineCodeAux fuel rest

/-- The inline-code pass at full fuel. -/
def replaceInlineCode (l : List Char) : List Char :=
  replaceInlineCodeAux l.length l

/-- `^\- (.*$)` → `<li class="ml-4">• $1</li>`. -/
def ulLine (line : List Char) : List Char :=
  if "- ".data.isPrefixOf line then
    "<li class=\"ml-4\">• ".data ++ line.drop 2 ++ "</li>".data
  else line

/-- `^\d+\. (.*$)` → `<li class="ml-4 list-decimal">$1</li>`. -/
def olLine (line : List Char) : List Char :=
  let ds := line.takeWhile (fun c => c.isDigit)
  let rest := line.dropWhile (fun c => c.isDigit)
  if ds ≠ [] ∧ ". ".data.isPrefixOf rest then
    "<li class=\"ml-4 list-decimal\">".data ++ rest.drop 2 ++ "</li>".data
  else line

/-- Whether the pattern occurs at position `i`. -/
def subAt (pat l : List Char) (i : Nat) : Bool := pat.isPrefixOf (l.drop i)

/-- Index of the first occurrence of a pattern. -/
def firstSubIdx (pat l : List Char) : Option Nat :=
  (List.range (l.length + 1)).find? (subAt pat l)

/-- Index of the last occurrence of a pattern. -/
def lastSubIdx (pat l : List Char) : Option Nat :=
  (List.range (l.length + 1)).reverse.find? (subAt pat l)

/-- The list-container wrap `(<li.*<\/li>)` → `<ul class="my-2">$1</ul>`:
no `g` flag and a greedy dot-all `.*`, so a single replacement spanning
from the first `<li` to the last `</li>` of the whole text, whatever lies
in between. If either delimiter is absent the text is unchanged. -/
def ulWrap (l : List Char) : List Char :=
  match firstSubIdx "<li".data l with
  | none => l
  | some i =>
    match lastSubIdx "</li>".data (l.drop i) with
    | none => l
    | some j =>
      l.take i ++ "<ul class=\"my-2\">".data ++ (l.drop i).take (j + 5) ++
        "</ul>".data ++ (l.drop i).drop (j + 5)

/-- Global `\[([^\]]+)\]\(([^)]+)\)` →
`<a href="$2" … target="_blank">$1</a>`. -/
def replaceLinksAux : Nat → List Char → List Char
  | 0, l => l
  | _ + 1, [] => []
  | fuel + 1, c :: rest =>
    if c = '[' then
      let label := rest.takeWhile (fun x => x ≠ ']')
      let rest₁ := rest.dropWhile (fun x => x ≠ ']')
      match rest₁ with
      | ']' :: '(' :: rest₂ =>
        let url := rest₂.takeWhile (fun x => x ≠ ')')
        let rest₃ := rest₂.dropWhile (fun x => x ≠ ')')
        match rest₃ with
        | ')' :: rest₄ =>
          if label = [] ∨ url = [] then c :: replaceLinksAux fuel rest
          else
            "<a href=\"".data ++ url ++
              ("\" class=\"text-blue-600 dark:text-blue-400 " ++
                "hover:underline\" target=\"_blank\">").data ++ label ++
              "</a>".data ++ replaceLinksAux fuel rest₄
        | _ => c :: replaceLinksAux fuel rest
      | _ => c :: replaceLinksAux fuel rest
    else c :: replaceLinksAux fuel rest

/-- The link pass at full fuel. -/
def replaceLinks (l : List Char) : List Char := replaceLinksAux l.length l

/-- `\n` → `<br/>`. -/
def breakLines (l : List Char) : List Char :=
  l.flatMap (fun c => if c = '\n' then "<br/>".data else [c])

/-- `parseMarkdown` (`DocumentUpload.jsx` lines 956–1007): the empty
string is falsy and returned unchanged; otherwise the replacement passes
run in source order. -/
def parseMarkdown (text : String) : String :=
  if text = "" then text
  else
    String.mk
      (breakLines
        (replaceLinks
          (mapLines olLine
            (ulWrap
              (mapLines ulLine
                (replaceInlineCode
                  (replaceCodeBlocks
                    (replaceItalic
                      (replaceBold
                        (mapLines h1Line
                          (mapLines h2Line
                            (mapLines h3Line text.data))))))))))))

example :
    (handleFileSelect [] 5
      [⟨"a.pdf", 10, "application/pdf", 0, 0⟩]).1 =
    [⟨"a.pdf", 10, "application/pdf", 0, 5, FileStatus.ready, 0, none, 0⟩] := by
  decide

/-- A state transition touches only entries whose id is `x`: length and
order preserved, all other entries unchanged, all ids unchanged. -/
def OnlyTouches (x : Nat) (fl fl' : List FileItem) : Prop :=
  fl'.length = fl.length ∧
  ∀ i (h : i < fl.length) (h' : i < fl'.length),
    (fl'.get ⟨i, h'⟩).id = (fl.get ⟨i, h⟩).id ∧
    ((fl.get ⟨i, h⟩).id ≠ x → fl'.get ⟨i, h'⟩ = fl.get ⟨i, h⟩)

/-- A terminal per-item status. -/
def doneStatus (f : FileItem) : Prop :=
  f.status = FileStatus.completed ∨ f.status = FileStatus.failed

/-- Sequential settlement of a list of per-file protocols, threading the
tracked-list state and appending each structured result: the combined
effect of `handleUploadAll`'s group loop. -/
def processFiles (oracle : UploadOracle)
    (acc : List FileItem × List UploadResult) (fs : List FileItem) :
    List FileItem × List UploadResult :=
  fs.foldl
    (fun a f =>
      let r := uploadSingleFile oracle a.1 f
      (r.1, a.2 ++ [r.2]))
    acc

/-- Number of occurrences of a pattern in a character list. -/
def countSub (pat l : List Char) : Nat :=
  (List.range (l.length + 1)).countP (subAt pat l)

/-! ## Helper lemmas -/

theorem updateFileStatus_length (files : List FileItem) (fid : Nat)
    (st : FileStatus) (pr : ℚ) (err : Option String) :
    (updateFileStatus files fid st pr err).length = files.length := by
  simp [updateFileStatus]

theorem updateFileStatus_get (files : List FileItem) (fid : Nat)
    (st : FileStatus) (pr : ℚ) (err : Option String) (i : Nat)
    (h : i < files.length)
    (h' : i < (updateFileStatus files fid st pr err).length) :
    (updateFileStatus files fid st pr err).get ⟨i, h'⟩ =
      if (files.get ⟨i, h⟩).id = fid then
        { files.get ⟨i, h⟩ with status := st, progress := pr, error := err }
      else files.get ⟨i, h⟩ := by
  simp [updateFileStatus]

theorem mem_updateFileStatus_id (files : List FileItem) (fid : Nat)
    (st : FileStatus) (pr : ℚ) (err : Option String) (e : FileItem)
    (he : e ∈ updateFileStatus files fid st pr err) (hid : e.id = fid) :
    e.status = st := by
  simp only [updateFileStatus, List.mem_map] at he
  obtain ⟨a, _, ha⟩ := he
  by_cases hc : a.id = fid
  · rw [if_pos hc] at ha
    rw [← ha]
  · rw [if_neg hc] at ha
    exact absurd (ha ▸ hid) hc

theorem onlyTouches_refl (x : Nat) (fl : List FileItem) :
    OnlyTouches x fl fl := by
  exact ⟨rfl, fun i h h' => ⟨rfl, fun _ => rfl⟩⟩

theorem onlyTouches_trans {x : Nat} {fl₁ fl₂ fl₃ : List FileItem}
    (h12 : OnlyTouches x fl₁ fl₂) (h23 : OnlyTouches x fl₂ fl₃) :
    OnlyTouches x fl₁ fl₃ := by
  obtain ⟨hl12, hp12⟩ := h12
  obtain ⟨hl23, hp23⟩ := h23
  refine ⟨hl23.trans hl12, fun i h h' => ?_⟩
  have h2 : i < fl₂.length := by omega
  obtain ⟨hid12, heq12⟩ := hp12 i h h2
  obtain ⟨hid23, heq23⟩ := hp23 i h2 h'
  refine ⟨hid23.trans hid12, fun hne => ?_⟩
  have hne2 : (fl₂.get ⟨i, h2⟩).id ≠ x := by rw [hid12]; exact hne
  rw [heq23 hne2, heq12 hne]

theorem updateFileStatus_onlyTouches (fl : List FileItem) (x : Nat)
    (st : FileStatus) (pr : ℚ) (err : Option String) :
    OnlyTouches x fl (updateFileStatus fl x st pr err) := by
  refine ⟨updateFileStatus_length fl x st pr err, fun i h h' => ?_⟩
  rw [updateFileStatus_get fl x st pr err i h h']
  by_cases hc : (fl.get ⟨i, h⟩).id = x
  · rw [if_pos hc]
    exact ⟨hc.trans hc.symm, fun hne => absurd hc hne⟩
  · rw [if_neg hc]
    exact ⟨rfl, fun _ => rfl⟩

theorem ticksFold_onlyTouches (ticks : List ℚ) (x : Nat) :
    ∀ fl : List FileItem,
      OnlyTouches x fl
        (ticks.foldl
          (fun acc p => updateFileStatus acc x FileStatus.uploading p none)
          fl) := by
  induction ticks with
  | nil => exact fun fl => onlyTouches_refl x fl
  | cons t ts ih =>
    intro fl
    exact onlyTouches_trans
      (updateFileStatus_onlyTouches fl x FileStatus.uploading t none)
      (ih _)

theorem streamText_spec (content : List Char) (rand : Nat → ℚ × ℚ) :
    ∀ (tick index : Nat) (displayed : List Char),
      streamText content rand tick index displayed =
        (displayed ++ content.drop index, 1) := by
  intro tick index displayed
  induction tick, index, displayed using streamText.induct content rand with
  | case1 tick index displayed hlt cs ih =>
    rw [streamText, if_pos hlt]
    show streamText content rand (tick + 1) (index + cs)
        (displayed ++ (content.drop index).take cs) =
      (displayed ++ content.drop index, 1)
    rw [ih]
    rw [List.append_assoc]
    have hdd : (content.drop index).drop cs = content.drop (index + cs) := by
      rw [List.drop_drop]
    rw [← hdd, List.take_append_drop]
  | case2 tick index displayed hge =>
    rw [streamText, if_neg hge]
    have : content.drop index = [] :=
      List.drop_eq_nil_of_le (by omega)
    rw [this, List.append_nil]

/-! ## Claim C1 — streaming renderer -/

/-- C1 counterexample: on the empty source string (length 0) with
streaming enabled, the effect body never runs — the displayed value stays
`""` (still equal to the source), but the completion callback is invoked
0 times, not exactly once as the claim requires. -/
theorem c1_empty_source_no_completion :
    (messageContentEffect "".data (fun _ => (0, 0))).1 = "".data ∧
    (messageContentEffect "".data (fun _ => (0, 0))).2 = 0 ∧
    ¬ (messageContentEffect "".data (fun _ => (0, 0))).2 = 1 := by
  decide

/-- C1 (amended): for every source string and every sequence of
`Math.random()` draws, the final displayed value equals the source, and
the completion callback is invoked exactly once when the source is
non-empty and never when it is empty. -/
theorem c1_streaming_displays_source (content : List Char)
    (rand : Nat → ℚ × ℚ) :
    (messageContentEffect content rand).1 = content ∧
    (messageContentEffect content rand).2 =
      (if content.isEmpty then 0 else 1) := by
  cases hc : content.isEmpty with
  | true =>
    have : content = [] := List.isEmpty_iff.mp hc
    subst this
    exact ⟨rfl, rfl⟩
  | false =>
    have hne : ¬ content.isEmpty = true := by rw [hc]; exact Bool.false_ne_true
    constructor
    · rw [messageContentEffect, if_neg hne, streamText_spec]
      simp
    · rw [messageContentEffect, if_neg hne, streamText_spec]
      simp

/-! ## Claim C2 — chat turn failure rollback -/

/-- C2 counterexample: a failed chat creation with draft `"hello"` leaves
the optimistic user message in the list (only the assistant placeholder is
removed) and leaves the draft empty instead of restoring it. -/
theorem c2_create_chat_failure_keeps_user_message :
    ¬ ((createNewChat
          ⟨[], none, [], "hello", "", none, "", false⟩ 5 none).messages = [] ∧
       (createNewChat
          ⟨[], none, [], "hello", "", none, "", false⟩ 5 none).newMessage =
         "hello") := by
  decide

/-- C2 (amended): on a failed follow-up message both optimistic entries
are removed and the trimmed draft is restored; on a failed chat creation
only the assistant placeholder is removed — the optimistic user message
remains as the whole message list — and the draft is left empty. -/
theorem c2_failure_rollback :
    (∀ (st : ChatState) (now : Nat),
      jsTrim st.newMessage ≠ "" → st.activeChat ≠ none →
      (sendMessage st now none).messages = st.messages ∧
      (sendMessage st now none).newMessage = jsTrim st.newMessage) ∧
    (∀ (st : ChatState) (now : Nat),
      jsTrim st.newMessage ≠ "" →
      (createNewChat st now none).messages =
        [{ id := "user-" ++ toString now, role := "user",
           content := jsTrim st.newMessage, createdAt := now,
           fullContent := none }] ∧
      (createNewChat st now none).newMessage = "") := by
  constructor
  · intro st now hdraft hactive
    have hguard : ¬ (jsTrim st.newMessage = "" ∨ st.activeChat = none) := by
      intro h
      cases h with
      | inl h => exact hdraft h
      | inr h => exact hactive h
    rw [sendMessage, if_neg hguard]
    refine ⟨?_, rfl⟩
    show jsSliceDropLast 2 (st.messages ++ [_, _]) = st.messages
    rw [jsSliceDropLast, List.length_append]
    simp only [List.length_cons, List.length_nil]
    have : st.messages.length + 2 - 2 = st.messages.length := by omega
    rw [this, List.take_left]
  · intro st now hdraft
    rw [createNewChat, if_neg hdraft]
    refine ⟨?_, rfl⟩
    show jsSliceDropLast 1 [_, _] = _
    rw [jsSliceDropLast]
    simp

/-- C2 witness: the amended theorem at a concrete state. -/
theorem c2_failure_rollback_witness :
    (sendMessage
        ⟨[], some ⟨"c1", "t", 0, 0⟩, [⟨"m1", "user", "q", 0, none⟩],
          " hi ", "", none, "", false⟩ 7 none).messages =
      [⟨"m1", "user", "q", 0, none⟩] ∧
    (sendMessage
        ⟨[], some ⟨"c1", "t", 0, 0⟩, [⟨"m1", "user", "q", 0, none⟩],
          " hi ", "", none, "", false⟩ 7 none).newMessage = "hi" ∧
    (createNewChat
        ⟨[], none, [], "hello", "", none, "", false⟩ 5 none).messages =
      [{ id := "user-5", role := "user", content := "hello", createdAt := 5,
         fullContent := none }] := by
  refine ⟨?_, ?_, ?_⟩
  · exact (c2_failure_rollback.1
      ⟨[], some ⟨"c1", "t", 0, 0⟩, [⟨"m1", "user", "q", 0, none⟩],
        " hi ", "", none, "", false⟩ 7 (by decide) (by decide)).1
  · exact (c2_failure_rollback.1
      ⟨[], some ⟨"c1", "t", 0, 0⟩, [⟨"m1", "user", "q", 0, none⟩],
        " hi ", "", none, "", false⟩ 7 (by decide) (by decide)).2
  · exact (c2_failure_rollback.2
      ⟨[], none, [], "hello", "", none, "", false⟩ 5 (by decide)).1

/-! ## Claim C10 — per-item status update frame property -/

/-- C10: `updateFileStatus` modifies only items whose id matches the
target: length and order are preserved; every item at a position whose id
differs from the target is unchanged in all fields; and even for matching
items the identity and attribute fields (name, size, type, last-modified,
id, payload reference) are untouched. -/
theorem c10_update_frame (files : List FileItem) (fid : Nat)
    (st : FileStatus) (pr : ℚ) (err : Option String) :
    (updateFileStatus files fid st pr err).length = files.length ∧
    ∀ i (h : i < files.length)
      (h' : i < (updateFileStatus files fid st pr err).length),
      ((files.get ⟨i, h⟩).id ≠ fid →
        (updateFileStatus files fid st pr err).get ⟨i, h'⟩ =
          files.get ⟨i, h⟩) ∧
      ((updateFileStatus files fid st pr err).get ⟨i, h'⟩).name =
        (files.get ⟨i, h⟩).name ∧
      ((updateFileStatus files fid st pr err).get ⟨i, h'⟩).size =
        (files.get ⟨i, h⟩).size ∧
      ((updateFileStatus files fid st pr err).get ⟨i, h'⟩).type =
        (files.get ⟨i, h⟩).type ∧
      ((updateFileStatus files fid st pr err).get ⟨i, h'⟩).lastModified =
        (files.get ⟨i, h⟩).lastModified ∧
      ((updateFileStatus files fid st pr err).get ⟨i, h'⟩).id =
        (files.get ⟨i, h⟩).id ∧
      ((updateFileStatus files fid st pr err).get ⟨i, h'⟩).file =
        (files.get ⟨i, h⟩).file := by
  refine ⟨updateFileStatus_length files fid st pr err, fun i h h' => ?_⟩
  rw [updateFileStatus_get files fid st pr err i h h']
  by_cases hc : (files.get ⟨i, h⟩).id = fid
  · rw [if_pos hc]
    exact ⟨fun hne => absurd hc hne, rfl, rfl, rfl, rfl, rfl, rfl⟩
  · rw [if_neg hc]
    exact ⟨fun _ => rfl, rfl, rfl, rfl, rfl, rfl, rfl⟩

/-- C10 witness: a concrete two-item list where updating item 2 leaves
item 1 (id 1) untouched and keeps item 2's attribute fields. -/
theorem c10_update_frame_witness :
    (updateFileStatus
        [⟨"a.pdf", 10, "application/pdf", 0, 1, FileStatus.ready, 0, none, 0⟩,
         ⟨"b.pdf", 20, "application/pdf", 0, 2, FileStatus.ready, 0, none, 1⟩]
        2 FileStatus.completed 100 none).length = 2 ∧
    (updateFileStatus
        [⟨"a.pdf", 10, "application/pdf", 0, 1, FileStatus.ready, 0, none, 0⟩,
         ⟨"b.pdf", 20, "application/pdf", 0, 2, FileStatus.ready, 0, none, 1⟩]
        2 FileStatus.completed 100 none).get ⟨0, by decide⟩ =
      ⟨"a.pdf", 10, "application/pdf", 0, 1, FileStatus.ready, 0, none, 0⟩ ∧
    ((updateFileStatus
        [⟨"a.pdf", 10, "application/pdf", 0, 1, FileStatus.ready, 0, none, 0⟩,
         ⟨"b.pdf", 20, "application/pdf", 0, 2, FileStatus.ready, 0, none, 1⟩]
        2 FileStatus.completed 100 none).get ⟨1, by decide⟩).name = "b.pdf" := by
  refine ⟨(c10_update_frame _ 2 FileStatus.completed 100 none).1, ?_, ?_⟩
  · exact ((c10_update_frame
      [⟨"a.pdf", 10, "application/pdf", 0, 1, FileStatus.ready, 0, none, 0⟩,
       ⟨"b.pdf", 20, "application/pdf", 0, 2, FileStatus.ready, 0, none, 1⟩]
      2 FileStatus.completed 100 none).2 0 (by decide) (by decide)).1
      (by decide)
  · exact ((c10_update_frame
      [⟨"a.pdf", 10, "application/pdf", 0, 1, FileStatus.ready, 0, none, 0⟩,
       ⟨"b.pdf", 20, "application/pdf", 0, 2, FileStatus.ready, 0, none, 1⟩]
      2 FileStatus.completed 100 none).2 1 (by decide) (by decide)).2.1

/-! ## Claim C7 — whole-selection rejection over the file cap -/

/-- C7: whenever a selection would push the tracked count beyond
`MAX_FILES`, the whole selection is rejected: the tracked set is returned
unchanged and the single aggregate message is reported. -/
theorem c7_over_limit_rejects_all (files : List FileItem) (now : Nat)
    (selected : List Candidate)
    (h : files.length + selected.length > MAX_FILES) :
    handleFileSelect files now selected =
      (files, "Cannot upload more than " ++ toString MAX_FILES ++
        " files. Currently have " ++ toString files.length ++ " files.") := by
  rw [handleFileSelect, if_pos h]

/-- C7 witness: adding 5 candidates to 97 tracked files (97 + 5 > 100)
admits 0 and reports the aggregate message. -/
theorem c7_over_limit_rejects_all_witness :
    handleFileSelect
        (List.replicate 97
          ⟨"a.pdf", 10, "application/pdf", 0, 1, FileStatus.ready, 0, none, 0⟩)
        1000
        (List.replicate 5 ⟨"b.pdf", 11, "application/pdf", 0, 1⟩) =
      (List.replicate 97
        ⟨"a.pdf", 10, "application/pdf", 0, 1, FileStatus.ready, 0, none, 0⟩,
       "Cannot upload more than 100 files. Currently have 97 files.") := by
  rw [c7_over_limit_rejects_all _ 1000 _ (by decide)]
  norm_num [MAX_FILES]
  decide

/-! ## Claim C6 — id uniqueness within a batch -/

/-- C6 (code bug): ids are `Date.now() + index`, so two selection events
in the same millisecond assign the same id to two different files; both
are then retryable members of the same batch. Here event one admits
`a.pdf` at time 1000 (id 1000) and event two admits `b.pdf` at time 1000
(id 1000): the batch contains two items with identical ids. -/
theorem c6_id_collision_across_events :
    ((filesToUpload
        (handleFileSelect
          (handleFileSelect [] 1000
            [⟨"a.pdf", 10, "application/pdf", 0, 0⟩]).1
          1000 [⟨"b.pdf", 11, "application/pdf", 0, 1⟩]).1).map
        (fun f => f.id)) = [1000, 1000] ∧
    ¬ ((filesToUpload
        (handleFileSelect
          (handleFileSelect [] 1000
            [⟨"a.pdf", 10, "application/pdf", 0, 0⟩]).1
          1000 [⟨"b.pdf", 11, "application/pdf", 0, 1⟩]).1).map
        (fun f => f.id)).Nodup := by
  decide

/-! ## Claim C5 — duplicate rejection -/

/-- C5 counterexample: the duplicate check only consults the
previously-tracked list, so the same `{name, size}` pair offered twice in
one selection event is admitted twice, with no rejection message. -/
theorem c5_same_event_duplicate_admitted_twice :
    (handleFileSelect [] 0
        [⟨"a.pdf", 10, "application/pdf", 0, 0⟩,
         ⟨"a.pdf", 10, "application/pdf", 0, 0⟩]).1.countP
      (fun f => f.name == "a.pdf" && f.size == 10) = 2 ∧
    (handleFileSelect [] 0
        [⟨"a.pdf", 10, "application/pdf", 0, 0⟩,
         ⟨"a.pdf", 10, "application/pdf", 0, 0⟩]).2 = "" := by
  decide

/-- C5 (amended): a valid candidate duplicating an item admitted in an
earlier selection event is rejected — the tracked set is unchanged and the
rejection message names the file — and hence a pair admitted in one event
and offered again in a later event is admitted only once. (Two copies in
the same selection event are both admitted; see the counterexample.) -/
theorem c5_duplicate_rejection :
    (∀ (files : List FileItem) (now : Nat) (c : Candidate),
      files.length < MAX_FILES →
      validateFile c = none →
      files.any (fun ef => ef.name == c.name && ef.size == c.size) = true →
      handleFileSelect files now [c] =
        (files, "Some files were rejected: " ++ c.name ++ ": Duplicate file")) ∧
    (∀ (files : List FileItem) (now₁ now₂ : Nat) (c : Candidate),
      files.length + 2 ≤ MAX_FILES →
      validateFile c = none →
      files.any (fun ef => ef.name == c.name && ef.size == c.size) = false →
      (handleFileSelect files now₁ [c]).1 = files ++ [mkFileObj now₁ 0 c] ∧
      (handleFileSelect (handleFileSelect files now₁ [c]).1 now₂ [c]).1 =
        (handleFileSelect files now₁ [c]).1) := by
  constructor
  · intro files now c hlen hval hdup
    have hcap : ¬ (files.length + ([c] : List Candidate).length > MAX_FILES) := by
      simp only [List.length_cons, List.length_nil]
      omega
    have hdup' : ∃ x ∈ files, x.name = c.name ∧ x.size = c.size := by
      simpa using hdup
    rw [handleFileSelect, if_neg hcap]
    simp [List.enum, List.enumFrom, hval, hdup', joinComma,
      String.append_assoc]
  · intro files now₁ now₂ c hlen hval hdup
    have hcap : ¬ (files.length + ([c] : List Candidate).length > MAX_FILES) := by
      simp only [List.length_cons, List.length_nil]
      omega
    have hdup' : ¬ ∃ x ∈ files, x.name = c.name ∧ x.size = c.size := by
      simpa using hdup
    have hfirst : handleFileSelect files now₁ [c] =
        (files ++ [mkFileObj now₁ 0 c], "") := by
      rw [handleFileSelect, if_neg hcap]
      simp [List.enum, List.enumFrom, hval, hdup']
    refine ⟨by rw [hfirst], ?_⟩
    rw [hfirst]
    have hcap₂ : ¬ ((files ++ [mkFileObj now₁ 0 c]).length +
        ([c] : List Candidate).length > MAX_FILES) := by
      simp only [List.length_append, List.length_cons, List.length_nil]
      omega
    rw [handleFileSelect, if_neg hcap₂]
    simp [List.enum, List.enumFrom, hval, mkFileObj]

/-- C5 witness: the amended theorem at concrete inputs — `a.pdf` admitted
at event time 50 and rejected by name when offered again at time 60. -/
theorem c5_duplicate_rejection_witness :
    handleFileSelect
        [⟨"a.pdf", 10, "application/pdf", 0, 42, FileStatus.ready, 0, none, 0⟩]
        60 [⟨"a.pdf", 10, "application/pdf", 0, 0⟩] =
      ([⟨"a.pdf", 10, "application/pdf", 0, 42, FileStatus.ready, 0, none, 0⟩],
       "Some files were rejected: a.pdf: Duplicate file") ∧
    (handleFileSelect [] 50 [⟨"b.pdf", 7, "application/pdf", 0, 1⟩]).1 =
      [] ++ [mkFileObj 50 0 ⟨"b.pdf", 7, "application/pdf", 0, 1⟩] ∧
    (handleFileSelect
        (handleFileSelect [] 50 [⟨"b.pdf", 7, "application/pdf", 0, 1⟩]).1
        60 [⟨"b.pdf", 7, "application/pdf", 0, 1⟩]).1 =
      (handleFileSelect [] 50 [⟨"b.pdf", 7, "application/pdf", 0, 1⟩]).1 := by
  refine ⟨?_, ?_, ?_⟩
  · exact c5_duplicate_rejection.1
      [⟨"a.pdf", 10, "application/pdf", 0, 42, FileStatus.ready, 0, none, 0⟩]
      60 ⟨"a.pdf", 10, "application/pdf", 0, 0⟩ (by decide) (by decide)
      (by decide)
  · exact (c5_duplicate_rejection.2 [] 50 60
      ⟨"b.pdf", 7, "application/pdf", 0, 1⟩ (by decide) (by decide)
      (by decide)).1
  · exact (c5_duplicate_rejection.2 [] 50 60
      ⟨"b.pdf", 7, "application/pdf", 0, 1⟩ (by decide) (by decide)
      (by decide)).2

/-! ## Helper lemmas for the batch orchestration -/

theorem chunksOfAux_flatten (n : Nat) (hn : n ≠ 0) :
    ∀ (fuel : Nat) (l : List α), l.length ≤ fuel →
      (chunksOfAux n fuel l).flatten = l := by
  intro fuel
  induction fuel with
  | zero =>
    intro l hl
    cases l with
    | nil => rfl
    | cons a as => simp at hl
  | succ fuel ih =>
    intro l hl
    cases l with
    | nil => rfl
    | cons a as =>
      rw [chunksOfAux, List.flatten_cons]
      rw [ih ((a :: as).drop n) (by simp only [List.length_cons] at hl; simp only [List.length_drop, List.length_cons]; omega)]
      exact List.take_append_drop _ _

theorem chunksOf_flatten (n : Nat) (l : List α) (hn : n ≠ 0) :
    (chunksOf n l).flatten = l :=
  chunksOfAux_flatten n hn l.length l (le_refl _)

theorem chunksOfAux_mem (n : Nat) (hn : n ≠ 0) :
    ∀ (fuel : Nat) (l : List α) (g : List α),
      g ∈ chunksOfAux n fuel l → g.length ≤ n ∧ g ≠ [] := by
  intro fuel
  induction fuel with
  | zero =>
    intro l g hg
    cases l with
    | nil => simp [chunksOfAux] at hg
    | cons a as => simp [chunksOfAux] at hg
  | succ fuel ih =>
    intro l g hg
    cases l with
    | nil => simp [chunksOfAux] at hg
    | cons a as =>
      rw [chunksOfAux] at hg
      rcases List.mem_cons.mp hg with h | h
      · subst h
        refine ⟨List.length_take_le n (a :: as), ?_⟩
        cases n with
        | zero => exact absurd rfl hn
        | succ m => simp
      · exact ih _ g h

theorem chunksOf_mem (n : Nat) (l : List α) (g : List α) (hn : n ≠ 0)
    (hg : g ∈ chunksOf n l) : g.length ≤ n ∧ g ≠ [] :=
  chunksOfAux_mem n hn l.length l g hg

theorem processGroup_eq (oracle : UploadOracle) (files : List FileItem)
    (g : List FileItem) :
    processGroup oracle files g = processFiles oracle (files, []) g := rfl

theorem processFiles_acc (oracle : UploadOracle) (fs : List FileItem) :
    ∀ (s : List FileItem) (rs : List UploadResult),
      processFiles oracle (s, rs) fs =
        ((processFiles oracle (s, []) fs).1,
          rs ++ (processFiles oracle (s, []) fs).2) := by
  induction fs with
  | nil => intro s rs; simp [processFiles]
  | cons f fs ih =>
    intro s rs
    simp only [processFiles, List.foldl_cons] at *
    rw [ih ((uploadSingleFile oracle s f).1)
        (rs ++ [(uploadSingleFile oracle s f).2])]
    simp only [List.nil_append]
    rw [ih ((uploadSingleFile oracle s f).1) [(uploadSingleFile oracle s f).2]]
    simp

theorem processFiles_append (oracle : UploadOracle)
    (acc : List FileItem × List UploadResult) (fs₁ fs₂ : List FileItem) :
    processFiles oracle acc (fs₁ ++ fs₂) =
      processFiles oracle (processFiles oracle acc fs₁) fs₂ := by
  simp [processFiles, List.foldl_append]

theorem groupFold_eq_processFiles (oracle : UploadOracle) :
    ∀ (gs : List (List FileItem)) (acc : List FileItem × List UploadResult),
      gs.foldl
        (fun acc g =>
          let r := processGroup oracle acc.1 g
          (r.1, acc.2 ++ r.2))
        acc =
      processFiles oracle acc gs.flatten := by
  intro gs
  induction gs with
  | nil => intro acc; simp [processFiles]
  | cons g gs ih =>
    intro acc
    obtain ⟨s, rs⟩ := acc
    rw [List.foldl_cons, ih, List.flatten_cons, processFiles_append]
    congr 1
    show ((processGroup oracle s g).1, rs ++ (processGroup oracle s g).2) =
      processFiles oracle (s, rs) g
    rw [processGroup_eq, processFiles_acc oracle g s rs]

theorem uploadCatch_onlyTouches (files : List FileItem) (f : FileItem)
    (msg : String) : OnlyTouches f.id files (uploadCatch files f msg).1 := by
  exact updateFileStatus_onlyTouches files f.id FileStatus.failed 0 (some msg)

theorem uploadSingleFile_onlyTouches (oracle : UploadOracle)
    (files : List FileItem) (f : FileItem) :
    OnlyTouches f.id files (uploadSingleFile oracle files f).1 := by
  simp only [uploadSingleFile]
  split
  · exact uploadCatch_onlyTouches files f _
  · split
    · exact uploadCatch_onlyTouches files f _
    · split
      · exact onlyTouches_trans
          (updateFileStatus_onlyTouches files f.id FileStatus.gettingUrl 0 none)
          (uploadCatch_onlyTouches _ f _)
      · split
        · exact onlyTouches_trans
            (updateFileStatus_onlyTouches files f.id FileStatus.gettingUrl 0 none)
            (uploadCatch_onlyTouches _ f _)
        · split
          · split
            · exact onlyTouches_trans
                (updateFileStatus_onlyTouches files f.id FileStatus.gettingUrl 0 none)
                (uploadCatch_onlyTouches _ f _)
            · split
              · exact onlyTouches_trans
                  (updateFileStatus_onlyTouches files f.id FileStatus.gettingUrl 0 none)
                  (onlyTouches_trans
                    (updateFileStatus_onlyTouches _ f.id FileStatus.uploading 0 none)
                    (onlyTouches_trans
                      (ticksFold_onlyTouches _ f.id _)
                      (uploadCatch_onlyTouches _ f _)))
              · split
                · exact onlyTouches_trans
                    (updateFileStatus_onlyTouches files f.id FileStatus.gettingUrl 0 none)
                    (onlyTouches_trans
                      (updateFileStatus_onlyTouches _ f.id FileStatus.uploading 0 none)
                      (onlyTouches_trans
                        (ticksFold_onlyTouches _ f.id _)
                        (onlyTouches_trans
                          (updateFileStatus_onlyTouches _ f.id FileStatus.processing 100 none)
                          (uploadCatch_onlyTouches _ f _))))
                · exact onlyTouches_trans
                    (updateFileStatus_onlyTouches files f.id FileStatus.gettingUrl 0 none)
                    (onlyTouches_trans
                      (updateFileStatus_onlyTouches _ f.id FileStatus.uploading 0 none)
                      (onlyTouches_trans
                        (ticksFold_onlyTouches _ f.id _)
                        (onlyTouches_trans
                          (updateFileStatus_onlyTouches _ f.id FileStatus.processing 100 none)
                          (updateFileStatus_onlyTouches _ f.id FileStatus.completed 100 none))))
          · exact onlyTouches_trans
              (updateFileStatus_onlyTouches files f.id FileStatus.gettingUrl 0 none)
              (uploadCatch_onlyTouches _ f _)

theorem mem_uploadCatch_done (files : List FileItem) (f : FileItem)
    (msg : String) (e : FileItem) (he : e ∈ (uploadCatch files f msg).1)
    (hid : e.id = f.id) : doneStatus e := by
  exact Or.inr (mem_updateFileStatus_id files f.id FileStatus.failed 0
    (some msg) e he hid)

theorem uploadSingleFile_final (oracle : UploadOracle)
    (files : List FileItem) (f : FileItem) :
    ∀ e ∈ (uploadSingleFile oracle files f).1, e.id = f.id → doneStatus e := by
  intro e he hid
  simp only [uploadSingleFile] at he
  split at he
  · exact mem_uploadCatch_done files f _ e he hid
  · split at he
    · exact mem_uploadCatch_done files f _ e he hid
    · split at he
      · exact mem_uploadCatch_done _ f _ e he hid
      · split at he
        · exact mem_uploadCatch_done _ f _ e he hid
        · split at he
          · split at he
            · exact mem_uploadCatch_done _ f _ e he hid
            · split at he
              · exact mem_uploadCatch_done _ f _ e he hid
              · split at he
                · exact mem_uploadCatch_done _ f _ e he hid
                · exact Or.inl (mem_updateFileStatus_id _ f.id
                    FileStatus.completed 100 none e he hid)
          · exact mem_uploadCatch_done _ f _ e he hid

theorem onlyTouches_mem {x : Nat} {fl fl' : List FileItem}
    (ht : OnlyTouches x fl fl') (e : FileItem) (he : e ∈ fl')
    (hne : e.id ≠ x) : e ∈ fl := by
  obtain ⟨hl, hp⟩ := ht
  obtain ⟨i, hi, hget⟩ := List.mem_iff_getElem.mp he
  have hif : i < fl.length := by omega
  obtain ⟨hid, heq⟩ := hp i hif hi
  have hgget : fl'.get ⟨i, hi⟩ = e := by
    rw [List.get_eq_getElem]
    exact hget
  have hx : (fl.get ⟨i, hif⟩).id ≠ x := by
    rw [← hid, hgget]
    exact hne
  rw [← hgget, heq hx]
  exact List.get_mem fl i hif

theorem processFiles_results_length (oracle : UploadOracle) :
    ∀ (fs : List FileItem) (s : List FileItem) (rs : List UploadResult),
      (processFiles oracle (s, rs) fs).2.length = rs.length + fs.length := by
  intro fs
  induction fs with
  | nil => intro s rs; simp [processFiles]
  | cons f fs ih =>
    intro s rs
    simp only [processFiles, List.foldl_cons] at *
    rw [ih]
    simp
    omega

theorem processFiles_done (oracle : UploadOracle) :
    ∀ (fs : List FileItem) (s : List FileItem) (rs : List UploadResult)
      (S : List Nat),
      (∀ e ∈ s, e.id ∈ S → doneStatus e) →
      ∀ e ∈ (processFiles oracle (s, rs) fs).1,
        (e.id ∈ S ∨ e.id ∈ fs.map (fun f => f.id)) → doneStatus e := by
  intro fs
  induction fs with
  | nil =>
    intro s rs S hS e he hid
    simp only [processFiles, List.foldl_nil] at he
    rcases hid with h | h
    · exact hS e he h
    · simp at h
  | cons f fs ih =>
    intro s rs S hS e he hid
    simp only [processFiles, List.foldl_cons] at he
    have hinv : ∀ e' ∈ (uploadSingleFile oracle s f).1,
        e'.id ∈ f.id :: S → doneStatus e' := by
      intro e' he' hmem
      by_cases hfe : e'.id = f.id
      · exact uploadSingleFile_final oracle s f e' he' hfe
      · have hS' : e'.id ∈ S := by
          rcases List.mem_cons.mp hmem with h | h
          · exact absurd h hfe
          · exact h
        exact hS e'
          (onlyTouches_mem (uploadSingleFile_onlyTouches oracle s f) e' he' hfe)
          hS'
    have hid' : e.id ∈ f.id :: S ∨ e.id ∈ fs.map (fun f => f.id) := by
      rcases hid with h | h
      · exact Or.inl (List.mem_cons_of_mem _ h)
      · rw [List.map_cons] at h
        rcases List.mem_cons.mp h with h' | h'
        · exact Or.inl (by rw [h']; exact List.mem_cons_self _ _)
        · exact Or.inr h'
    exact ih (uploadSingleFile oracle s f).1
      (rs ++ [(uploadSingleFile oracle s f).2]) (f.id :: S) hinv e he hid'

/-! ## Claim C3 — every batch item ends completed or failed, with a
structured result -/

/-- C3: after one upload-all invocation, every tracked item whose id
belongs to the processed batch has status `completed` or `failed`, and the
invocation produces exactly one structured result per batch item (no
per-item failure escapes the orchestrator). -/
theorem c3_batch_final_statuses (oracle : UploadOracle)
    (files : List FileItem) :
    (∀ e ∈ (handleUploadAll oracle files).1,
      e.id ∈ (filesToUpload files).map (fun f => f.id) →
      e.status = FileStatus.completed ∨ e.status = FileStatus.failed) ∧
    (handleUploadAll oracle files).2.1.length =
      (filesToUpload files).length := by
  simp only [handleUploadAll]
  split
  · next hnil =>
    subst hnil
    constructor
    · intro e he
      simp at he
    · simp [filesToUpload]
  · split
    · next hretry =>
      rw [hretry]
      constructor
      · intro e he hid
        simp at hid
      · simp
    · rw [groupFold_eq_processFiles,
        chunksOf_flatten 3 (filesToUpload files) (by omega)]
      constructor
      · intro e he hid
        exact processFiles_done oracle (filesToUpload files) files [] []
          (by intro e' _ h; simp at h) e he (Or.inr hid)
      · show (processFiles oracle (files, []) (filesToUpload files)).2.length =
          (filesToUpload files).length
        rw [processFiles_results_length oracle (filesToUpload files) files []]
        simp

/-- C3 witness: one ready file uploaded through an all-success oracle ends
`completed`, and the batch yields one structured result. -/
theorem c3_batch_final_statuses_witness :
    ((⟨"a.pdf", 10, "application/pdf", 0, 1, FileStatus.completed, 100,
        none, 0⟩ : FileItem).status = FileStatus.completed ∨
      (⟨"a.pdf", 10, "application/pdf", 0, 1, FileStatus.completed, 100,
        none, 0⟩ : FileItem).status = FileStatus.failed) ∧
    (handleUploadAll
        ⟨fun _ _ => Except.ok ⟨some ⟨some "u", some "k"⟩⟩,
         fun _ _ => ⟨[], Except.ok ()⟩,
         fun _ _ _ _ => Except.ok ()⟩
        [⟨"a.pdf", 10, "application/pdf", 0, 1, FileStatus.ready, 0, none,
          0⟩]).2.1.length =
      (filesToUpload
        [⟨"a.pdf", 10, "application/pdf", 0, 1, FileStatus.ready, 0, none,
          0⟩]).length := by
  constructor
  · exact (c3_batch_final_statuses
      ⟨fun _ _ => Except.ok ⟨some ⟨some "u", some "k"⟩⟩,
       fun _ _ => ⟨[], Except.ok ()⟩,
       fun _ _ _ _ => Except.ok ()⟩
      [⟨"a.pdf", 10, "application/pdf", 0, 1, FileStatus.ready, 0, none,
        0⟩]).1
      ⟨"a.pdf", 10, "application/pdf", 0, 1, FileStatus.completed, 100,
        none, 0⟩
      (by decide) (by decide)
  · exact (c3_batch_final_statuses
      ⟨fun _ _ => Except.ok ⟨some ⟨some "u", some "k"⟩⟩,
       fun _ _ => ⟨[], Except.ok ()⟩,
       fun _ _ _ _ => Except.ok ()⟩
      [⟨"a.pdf", 10, "application/pdf", 0, 1, FileStatus.ready, 0, none,
        0⟩]).2

/-! ## Claim C4 — groups of 3, sequential groups, bounded concurrency -/

theorem prefix_append_cases {α : Type} {p a b : List α} (h : p <+: a ++ b) :
    p <+: a ∨ ∃ q, p = a ++ q ∧ q <+: b := by
  obtain ⟨t, ht⟩ := h
  by_cases hle : p.length ≤ a.length
  · left
    have hp : p = (a ++ b).take p.length := by
      rw [← ht, List.take_append_eq_append_take]
      simp
    rw [hp, List.take_append_eq_append_take]
    have h0 : p.length - a.length = 0 := by omega
    rw [h0]
    simp
    exact List.take_prefix p.length a
  · have hpt : p.take a.length = a := by
      have h1 : (p ++ t).take a.length = p.take a.length := by
        rw [List.take_append_eq_append_take]
        have h0 : a.length - p.length = 0 := by omega
        rw [h0]
        simp
      rw [ht, List.take_append_eq_append_take] at h1
      simp at h1
      exact h1.symm
    have hsplit : p = a ++ p.drop a.length := by
      conv_lhs => rw [← List.take_append_drop a.length p]
      rw [hpt]
    right
    refine ⟨p.drop a.length, hsplit, t, ?_⟩
    have h2 : a ++ (p.drop a.length ++ t) = a ++ b := by
      rw [← List.append_assoc, ← hsplit, ht]
    exact List.append_cancel_left h2

theorem inFlight_append (p q : List UpEvent) :
    inFlight (p ++ q) = inFlight p + inFlight q := by
  simp only [inFlight, List.countP_append]
  push_cast
  ring

theorem inFlight_groupTrace (g : List FileItem) :
    inFlight (groupTrace g) = 0 := by
  simp only [inFlight, groupTrace, List.countP_append, List.countP_map]
  have h1 : ∀ l : List FileItem,
      l.countP ((fun e => match e with
        | UpEvent.start _ => true | _ => false) ∘ fun f => UpEvent.start f.id) =
        l.length := by
    intro l
    simp [Function.comp]
  have h2 : ∀ l : List FileItem,
      l.countP ((fun e => match e with
        | UpEvent.start _ => true | _ => false) ∘ fun f => UpEvent.settle f.id) =
        0 := by
    intro l
    simp [Function.comp]
  have h3 : ∀ l : List FileItem,
      l.countP ((fun e => match e with
        | UpEvent.settle _ => true | _ => false) ∘ fun f => UpEvent.start f.id) =
        0 := by
    intro l
    simp [Function.comp]
  have h4 : ∀ l : List FileItem,
      l.countP ((fun e => match e with
        | UpEvent.settle _ => true | _ => false) ∘ fun f => UpEvent.settle f.id) =
        l.length := by
    intro l
    simp [Function.comp]
  rw [h1, h2, h3, h4]
  push_cast
  ring

theorem inFlight_le_of_prefix_groupTrace (g : List FileItem)
    (p : List UpEvent) (hp : p <+: groupTrace g) :
    inFlight p ≤ (g.length : ℤ) := by
  have hstart : p.countP (fun e => match e with
      | UpEvent.start _ => true | _ => false) ≤
      (groupTrace g).countP (fun e => match e with
        | UpEvent.start _ => true | _ => false) :=
    hp.sublist.countP_le _
  have hgs : (groupTrace g).countP (fun e => match e with
      | UpEvent.start _ => true | _ => false) = g.length := by
    simp only [groupTrace, List.countP_append, List.countP_map]
    have h1 : ∀ l : List FileItem,
        l.countP ((fun e => match e with
          | UpEvent.start _ => true | _ => false) ∘ fun f => UpEvent.start f.id) =
          l.length := by
      intro l
      simp [Function.comp]
    have h2 : ∀ l : List FileItem,
        l.countP ((fun e => match e with
          | UpEvent.start _ => true | _ => false) ∘ fun f => UpEvent.settle f.id) =
          0 := by
      intro l
      simp [Function.comp]
    rw [h1, h2]
    omega
  rw [inFlight]
  omega

theorem uploadTrace_inFlight_le (gs : List (List FileItem))
    (hg : ∀ g ∈ gs, g.length ≤ 3) :
    ∀ p, p <+: gs.flatMap groupTrace → inFlight p ≤ 3 := by
  induction gs with
  | nil =>
    intro p hp
    simp only [List.flatMap_nil] at hp
    rw [List.prefix_nil.mp hp]
    simp [inFlight]
  | cons g gs ih =>
    intro p hp
    rw [List.flatMap_cons] at hp
    rcases prefix_append_cases hp with h | ⟨q, hq, hqp⟩
    · calc inFlight p ≤ (g.length : ℤ) :=
        inFlight_le_of_prefix_groupTrace g p h
      _ ≤ 3 := by
        have := hg g (List.mem_cons_self g gs)
        omega
    · rw [hq, inFlight_append, inFlight_groupTrace]
      have := ih (fun g' hg' => hg g' (List.mem_cons_of_mem g hg')) q hqp
      omega

/-- C4: the retryable batch is partitioned into consecutive groups of at
most 3 (their concatenation is the batch, in order, and every group is
non-empty); along the event trace of the orchestration — all of a group's
protocols start, then all settle before the next group starts — at most 3
protocols are ever in flight; and a group's settlement collects exactly
one result per member (never short-circuited by a failure). -/
theorem c4_bounded_concurrency (batch : List FileItem) :
    (chunksOf 3 batch).flatten = batch ∧
    (∀ g ∈ chunksOf 3 batch, g.length ≤ 3 ∧ g ≠ []) ∧
    (∀ p, p <+: uploadTrace batch → inFlight p ≤ 3) ∧
    (∀ (oracle : UploadOracle) (st g : List FileItem),
      g ∈ chunksOf 3 batch →
      (processGroup oracle st g).2.length = g.length) := by
  refine ⟨chunksOf_flatten 3 batch (by omega),
    fun g hg => chunksOf_mem 3 batch g (by omega) hg, ?_, ?_⟩
  · intro p hp
    exact uploadTrace_inFlight_le (chunksOf 3 batch)
      (fun g hg => (chunksOf_mem 3 batch g (by omega) hg).1) p hp
  · intro oracle st g hg
    rw [processGroup_eq, processFiles_results_length oracle g st []]
    simp

/-- C4 witness: a concrete batch of 4 files; after the first group's three
starts the in-flight count is exactly at the bound 3, and the first group
of the partition settles with 3 results. -/
theorem c4_bounded_concurrency_witness :
    inFlight [UpEvent.start 1, UpEvent.start 2, UpEvent.start 3] ≤ 3 ∧
    (processGroup
        ⟨fun _ _ => Except.ok ⟨some ⟨some "u", some "k"⟩⟩,
         fun _ _ => ⟨[], Except.ok ()⟩,
         fun _ _ _ _ => Except.ok ()⟩
        [⟨"a", 1, "application/pdf", 0, 1, FileStatus.ready, 0, none, 0⟩,
         ⟨"b", 1, "application/pdf", 0, 2, FileStatus.ready, 0, none, 0⟩,
         ⟨"c", 1, "application/pdf", 0, 3, FileStatus.ready, 0, none, 0⟩,
         ⟨"d", 1, "application/pdf", 0, 4, FileStatus.ready, 0, none, 0⟩]
        [⟨"a", 1, "application/pdf", 0, 1, FileStatus.ready, 0, none, 0⟩,
         ⟨"b", 1, "application/pdf", 0, 2, FileStatus.ready, 0, none, 0⟩,
         ⟨"c", 1, "application/pdf", 0, 3, FileStatus.ready, 0, none, 0⟩]).2.length =
      ([⟨"a", 1, "application/pdf", 0, 1, FileStatus.ready, 0, none, 0⟩,
        ⟨"b", 1, "application/pdf", 0, 2, FileStatus.ready, 0, none, 0⟩,
        ⟨"c", 1, "application/pdf", 0, 3, FileStatus.ready, 0, none, 0⟩] :
        List FileItem).length := by
  constructor
  · exact (c4_bounded_concurrency
      [⟨"a", 1, "application/pdf", 0, 1, FileStatus.ready, 0, none, 0⟩,
       ⟨"b", 1, "application/pdf", 0, 2, FileStatus.ready, 0, none, 0⟩,
       ⟨"c", 1, "application/pdf", 0, 3, FileStatus.ready, 0, none, 0⟩,
       ⟨"d", 1, "application/pdf", 0, 4, FileStatus.ready, 0, none, 0⟩]).2.2.1
      [UpEvent.start 1, UpEvent.start 2, UpEvent.start 3] (by decide)
  · exact (c4_bounded_concurrency
      [⟨"a", 1, "application/pdf", 0, 1, FileStatus.ready, 0, none, 0⟩,
       ⟨"b", 1, "application/pdf", 0, 2, FileStatus.ready, 0, none, 0⟩,
       ⟨"c", 1, "application/pdf", 0, 3, FileStatus.ready, 0, none, 0⟩,
       ⟨"d", 1, "application/pdf", 0, 4, FileStatus.ready, 0, none, 0⟩]).2.2.2
      ⟨fun _ _ => Except.ok ⟨some ⟨some "u", some "k"⟩⟩,
       fun _ _ => ⟨[], Except.ok ()⟩,
       fun _ _ _ _ => Except.ok ()⟩
      [⟨"a", 1, "application/pdf", 0, 1, FileStatus.ready, 0, none, 0⟩,
       ⟨"b", 1, "application/pdf", 0, 2, FileStatus.ready, 0, none, 0⟩,
       ⟨"c", 1, "application/pdf", 0, 3, FileStatus.ready, 0, none, 0⟩,
       ⟨"d", 1, "application/pdf", 0, 4, FileStatus.ready, 0, none, 0⟩]
      [⟨"a", 1, "application/pdf", 0, 1, FileStatus.ready, 0, none, 0⟩,
       ⟨"b", 1, "application/pdf", 0, 2, FileStatus.ready, 0, none, 0⟩,
       ⟨"c", 1, "application/pdf", 0, 3, FileStatus.ready, 0, none, 0⟩]
      (by decide)

/-! ## Claim C8 — heading match order and emphasis output -/

theorem splitLines_no_newline (l : List Char) (h : '\n' ∉ l) :
    splitLines l = [l] := by
  induction l with
  | nil => rfl
  | cons c rest ih =>
    have hc : ¬ c = '\n' := fun e => h (e ▸ List.mem_cons_self c rest)
    have hr : '\n' ∉ rest := fun m => h (List.mem_cons_of_mem _ m)
    rw [splitLines, if_neg hc, ih hr]

theorem mapLines_no_newline (f : List Char → List Char) (l : List Char)
    (h : '\n' ∉ l) : mapLines f l = f l := by
  rw [mapLines, splitLines_no_newline l h]
  simp [List.intercalate]

/-- C8: the triple-hash line replacement fires before the double- and
single-hash ones, so a `### ` line becomes exactly an h3 (never an h1/h2 —
the later passes leave its output unchanged); and the emphasis passes turn
`**bold** and *italic*` into bold-wrapped "bold" and italic-wrapped
"italic". -/
theorem c8_heading_order_and_emphasis :
    (∀ s : List Char, '\n' ∉ s →
      mapLines h1Line (mapLines h2Line (mapLines h3Line
        ("### ".data ++ s))) =
        "<h3 class=\"text-lg font-semibold mt-4 mb-2\">".data ++ s ++
          "</h3>".data) ∧
    parseMarkdown "**bold** and *italic*" =
      "<strong class=\"font-semibold\">bold</strong> and <em class=\"italic\">italic</em>" := by
  constructor
  · intro s hs
    have hs3 : '\n' ∉ "### ".data ++ s := by
      intro hmem
      rcases List.mem_append.mp hmem with h | h
      · exact absurd h (by decide)
      · exact hs h
    have hdrop : ("### ".data ++ s).drop 4 = s := by
      rw [show (4 : Nat) = ("### ".data).length from rfl, List.drop_left]
    have hpre : "### ".data.isPrefixOf ("### ".data ++ s) = true := by
      rw [List.isPrefixOf_iff_prefix]
      exact List.prefix_append _ _
    have h3eq : h3Line ("### ".data ++ s) =
        "<h3 class=\"text-lg font-semibold mt-4 mb-2\">".data ++ s ++
          "</h3>".data := by
      rw [h3Line]
      simp only [hpre, if_true, hdrop]
    have ht : '\n' ∉ "<h3 class=\"text-lg font-semibold mt-4 mb-2\">".data ++
        s ++ "</h3>".data := by
      intro hmem
      rcases List.mem_append.mp hmem with h | h
      · rcases List.mem_append.mp h with h' | h'
        · exact absurd h' (by decide)
        · exact hs h'
      · exact absurd h (by decide)
    have h2eq : h2Line
        ("<h3 class=\"text-lg font-semibold mt-4 mb-2\">".data ++ s ++
          "</h3>".data) =
        "<h3 class=\"text-lg font-semibold mt-4 mb-2\">".data ++ s ++
          "</h3>".data := by
      rw [h2Line]
      simp only [show "## ".data.isPrefixOf
        ("<h3 class=\"text-lg font-semibold mt-4 mb-2\">".data ++ s ++
          "</h3>".data) = false from rfl]
      simp
    have h1eq : h1Line
        ("<h3 class=\"text-lg font-semibold mt-4 mb-2\">".data ++ s ++
          "</h3>".data) =
        "<h3 class=\"text-lg font-semibold mt-4 mb-2\">".data ++ s ++
          "</h3>".data := by
      rw [h1Line]
      simp only [show "# ".data.isPrefixOf
        ("<h3 class=\"text-lg font-semibold mt-4 mb-2\">".data ++ s ++
          "</h3>".data) = false from rfl]
      simp
    rw [mapLines_no_newline h3Line _ hs3, h3eq,
      mapLines_no_newline h2Line _ ht, h2eq,
      mapLines_no_newline h1Line _ ht, h1eq]
  · decide

/-- C8 witness: the heading-stage equation at the concrete line
`### Title`, via the theorem, plus the concrete emphasis output. -/
theorem c8_heading_order_and_emphasis_witness :
    mapLines h1Line (mapLines h2Line (mapLines h3Line
      ("### ".data ++ "Title".data))) =
      "<h3 class=\"text-lg font-semibold mt-4 mb-2\">".data ++
        "Title".data ++ "</h3>".data ∧
    parseMarkdown "**bold** and *italic*" =
      "<strong class=\"font-semibold\">bold</strong> and <em class=\"italic\">italic</em>" :=
  ⟨c8_heading_order_and_emphasis.1 "Title".data (by decide),
   c8_heading_order_and_emphasis.2⟩

/-! ## Claim C9 — list container wrapping -/

theorem find?_range_min {p : Nat → Bool} :
    ∀ {n k : Nat}, k < n → p k = true → (∀ j, j < k → p j = false) →
      (List.range n).find? p = some k := by
  intro n
  induction n with
  | zero => intro k hk; omega
  | succ n ih =>
    intro k hk hpk hmin
    rw [List.range_succ, List.find?_append]
    by_cases hkn : k < n
    · rw [ih hkn hpk hmin]
      rfl
    · have hkeq : k = n := by omega
      subst hkeq
      have hnone : (List.range k).find? p = none := by
        rw [List.find?_eq_none]
        intro x hx
        rw [hmin x (List.mem_range.mp hx)]
        simp
      rw [hnone]
      simp [List.find?, hpk]

theorem find?_reverse_range_max {p : Nat → Bool} :
    ∀ {n k : Nat}, k < n → p k = true →
      (∀ j, k < j → j < n → p j = false) →
      (List.range n).reverse.find? p = some k := by
  intro n
  induction n with
  | zero => intro k hk; omega
  | succ n ih =>
    intro k hk hpk hmax
    rw [List.range_succ, List.reverse_append]
    simp only [List.reverse_singleton, List.singleton_append]
    by_cases hkn : k = n
    · subst hkn
      simp [List.find?, hpk]
    · have hpn : p n = false := hmax n (by omega) (by omega)
      rw [List.find?]
      rw [hpn]
      exact ih (by omega) hpk (fun j hj hjn => hmax j hj (by omega))

theorem subAt_head {c : Char} {cs l : List Char} {i : Nat}
    (h : subAt (c :: cs) l i = true) :
    ∃ hi : i < l.length, l.get ⟨i, hi⟩ = c := by
  rw [subAt, List.isPrefixOf_iff_prefix] at h
  obtain ⟨t, ht⟩ := h
  have hlen : i < l.length := by
    have hl := congrArg List.length ht
    simp only [List.length_append, List.length_cons, List.length_drop] at hl
    omega
  refine ⟨hlen, ?_⟩
  have hsplit : l = l.take i ++ (c :: (cs ++ t)) := by
    conv_lhs => rw [← List.take_append_drop i l]
    rw [← ht]
    simp
  have htl : (l.take i).length = i := by
    rw [List.length_take]
    omega
  rw [List.get_eq_getElem, List.getElem_of_eq hsplit]
  rw [List.getElem_append_right (by simp [htl])]
  simp [htl]

theorem subAt_false_of_head_ne {c : Char} {cs l : List Char} {i : Nat}
    (h : ∀ hi : i < l.length, l.get ⟨i, hi⟩ ≠ c) :
    subAt (c :: cs) l i = false := by
  cases hbool : subAt (c :: cs) l i
  · rfl
  · obtain ⟨hi, hhead⟩ := subAt_head hbool
    exact absurd hhead (h hi)

theorem ulWrap_single_assoc (pre mid post : List Char) (hpre : '<' ∉ pre)
    (hpost : '<' ∉ post) :
    ulWrap (pre ++ ("<li".data ++ (mid ++ ("</li>".data ++ post)))) =
      pre ++ ("<ul class=\"my-2\">".data ++ ("<li".data ++ (mid ++
        ("</li>".data ++ ("</ul>".data ++ post))))) := by
  have hAlen : ("<li".data ++ mid).length = 3 + mid.length := by
    simp [List.length_append]
    omega
  have hBlen : ("<li".data ++ (mid ++ "</li>".data)).length =
      3 + mid.length + 5 := by
    simp [List.length_append]
    omega
  have hRlen : ("<li".data ++ (mid ++ ("</li>".data ++ post))).length =
      3 + mid.length + 5 + post.length := by
    simp [List.length_append]
    omega
  have hsw : "<li".data ++ (mid ++ ("</li>".data ++ post)) =
      ("<li".data ++ mid) ++ ("</li>".data ++ post) := by
    simp [List.append_assoc]
  have hsw2 : "<li".data ++ (mid ++ ("</li>".data ++ post)) =
      ("<li".data ++ (mid ++ "</li>".data)) ++ post := by
    simp [List.append_assoc]
  have hdropl :
      (pre ++ ("<li".data ++ (mid ++ ("</li>".data ++ post)))).drop
        pre.length = "<li".data ++ (mid ++ ("</li>".data ++ post)) :=
    List.drop_left pre _
  have hfirst : firstSubIdx "<li".data
      (pre ++ ("<li".data ++ (mid ++ ("</li>".data ++ post)))) =
      some pre.length := by
    rw [firstSubIdx]
    apply find?_range_min
    · simp only [List.length_append]
      omega
    · rw [subAt, hdropl, List.isPrefixOf_iff_prefix]
      exact List.prefix_append _ _
    · intro j hj
      apply subAt_false_of_head_ne
      intro hi hhead
      have hjpre : (pre ++ ("<li".data ++ (mid ++ ("</li>".data ++
          post)))).get ⟨j, hi⟩ = pre.get ⟨j, hj⟩ := by
        rw [List.get_eq_getElem, List.get_eq_getElem]
        exact List.getElem_append_left hj
      exact hpre ((hjpre.symm.trans hhead) ▸ List.get_mem pre j hj)
  have hQhead : ∀ d (hd : d < ("</li>".data).length), 1 ≤ d →
      "</li>".data.get ⟨d, hd⟩ ≠ '<' := by decide
  have hlast : lastSubIdx "</li>".data
      ("<li".data ++ (mid ++ ("</li>".data ++ post))) =
      some (3 + mid.length) := by
    rw [lastSubIdx]
    apply find?_reverse_range_max
    · omega
    · rw [subAt, hsw, show (3 + mid.length) = ("<li".data ++ mid).length from
        hAlen.symm, List.drop_left, List.isPrefixOf_iff_prefix]
      exact List.prefix_append _ _
    · intro j h1 h2
      apply subAt_false_of_head_ne
      intro hi hhead
      have hheadg : ("<li".data ++ (mid ++ ("</li>".data ++ post))).get
          ⟨j, hi⟩ = '<' := hhead
      have hi' : j < 3 + mid.length + 5 + post.length := by
        rw [← hRlen]
        exact hi
      have hq5 : ("</li>".data).length = 5 := rfl
      by_cases hcase : j < 3 + mid.length + 5
      · -- the head char would sit inside the explicit "</li>"
        have hble : ("<li".data ++ mid).length ≤ j := by
          rw [hAlen]
          omega
        have hb2 : j - ("<li".data ++ mid).length <
            ("</li>".data).length := by
          rw [hAlen, hq5]
          omega
        have hbQP : j - ("<li".data ++ mid).length <
            ("</li>".data ++ post).length := by
          rw [hAlen, List.length_append, hq5]
          omega
        have hval : ("<li".data ++ (mid ++ ("</li>".data ++ post))).get
            ⟨j, hi⟩ =
            ("</li>".data ++ post).get
              ⟨j - ("<li".data ++ mid).length, hbQP⟩ := by
          rw [List.get_eq_getElem, List.get_eq_getElem,
            List.getElem_of_eq hsw hi]
          exact List.getElem_append_right hble
        have hval2 : ("</li>".data ++ post).get
            ⟨j - ("<li".data ++ mid).length, hbQP⟩ =
            "</li>".data.get ⟨j - ("<li".data ++ mid).length, hb2⟩ := by
          rw [List.get_eq_getElem, List.get_eq_getElem]
          exact List.getElem_append_left hb2
        have hfin : "</li>".data.get
            ⟨j - ("<li".data ++ mid).length, hb2⟩ = '<' := by
          rw [← hval2, ← hval]
          exact hheadg
        refine absurd hfin (hQhead _ hb2 ?_)
        rw [hAlen]
        omega
      · -- the head char would sit inside `post`
        have hble : ("<li".data ++ (mid ++ "</li>".data)).length ≤ j := by
          rw [hBlen]
          omega
        have hb2 : j - ("<li".data ++ (mid ++ "</li>".data)).length <
            post.length := by
          rw [hBlen]
          omega
        have hval : ("<li".data ++ (mid ++ ("</li>".data ++ post))).get
            ⟨j, hi⟩ =
            post.get ⟨j - ("<li".data ++ (mid ++ "</li>".data)).length,
              hb2⟩ := by
          rw [List.get_eq_getElem, List.get_eq_getElem,
            List.getElem_of_eq hsw2 hi]
          exact List.getElem_append_right hble
        have hpeq : post.get
            ⟨j - ("<li".data ++ (mid ++ "</li>".data)).length, hb2⟩ =
            '<' := hval.symm.trans hheadg
        exact hpost (hpeq ▸ List.get_mem post _ hb2)
  rw [ulWrap, hfirst]
  simp only [hdropl, hlast]
  have htake : ("<li".data ++ (mid ++ ("</li>".data ++ post))).take
      (3 + mid.length + 5) = "<li".data ++ (mid ++ "</li>".data) := by
    rw [hsw2, show (3 + mid.length + 5) =
      ("<li".data ++ (mid ++ "</li>".data)).length from hBlen.symm,
      List.take_left]
  have hdrop2 : ("<li".data ++ (mid ++ ("</li>".data ++ post))).drop
      (3 + mid.length + 5) = post := by
    rw [hsw2, show (3 + mid.length + 5) =
      ("<li".data ++ (mid ++ "</li>".data)).length from hBlen.symm,
      List.drop_left]
  rw [List.take_left, htake, hdrop2]
  simp [List.append_assoc]

/-- C9 counterexample: two separate runs of `- ` lines produce a single
list container spanning both, with the intervening non-list line `x`
captured inside it — not two containers. -/
theorem c9_two_runs_single_container :
    parseMarkdown "- a\nx\n- b" =
      "<ul class=\"my-2\"><li class=\"ml-4\">• a</li><br/>x<br/><li class=\"ml-4\">• b</li></ul>" ∧
    countSub "<ul".data (parseMarkdown "- a\nx\n- b").data = 1 := by
  decide

/-- C9 (amended): the container wrap is a single replacement spanning from
the first `<li` to the last `</li>` of the whole text — whatever lies
between is captured inside the one container (so two runs share it) — and
ordered-list lines become `<li class="ml-4 list-decimal">` items with no
container at all. -/
theorem c9_single_wrap :
    (∀ pre mid post : List Char, '<' ∉ pre → '<' ∉ post →
      ulWrap (pre ++ "<li".data ++ mid ++ "</li>".data ++ post) =
        pre ++ "<ul class=\"my-2\">".data ++ "<li".data ++ mid ++
          "</li>".data ++ "</ul>".data ++ post) ∧
    parseMarkdown "1. a\n2. b" =
      "<li class=\"ml-4 list-decimal\">a</li><br/><li class=\"ml-4 list-decimal\">b</li>" := by
  constructor
  · intro pre mid post hpre hpost
    have hgoal := ulWrap_single_assoc pre mid post hpre hpost
    rw [show pre ++ "<li".data ++ mid ++ "</li>".data ++ post =
      pre ++ ("<li".data ++ (mid ++ ("</li>".data ++ post))) from by
        simp [List.append_assoc], hgoal]
    simp [List.append_assoc]
  · decide

/-- C9 witness: the single-wrap equation at a concrete text whose middle
holds two list items and stray text, plus the concrete ordered-list
output. -/
theorem c9_single_wrap_witness :
    ulWrap ("ab ".data ++ "<li".data ++ ">one</li>x<li>two".data ++
        "</li>".data ++ " cd".data) =
      "ab ".data ++ "<ul class=\"my-2\">".data ++ "<li".data ++
        ">one</li>x<li>two".data ++ "</li>".data ++ "</ul>".data ++
        " cd".data ∧
    parseMarkdown "1. a\n2. b" =
      "<li class=\"ml-4 list-decimal\">a</li><br/><li class=\"ml-4 list-decimal\">b</li>" :=
  ⟨c9_single_wrap.1 "ab ".data ">one</li>x<li>two".data " cd".data
    (by decide) (by decide), c9_single_wrap.2⟩
